import Mathlib

/-!
Verification of the delegated-access-grant engine of the pet-clinical-history
repository.  The definitions below are a shallow embedding of
internal/domain/accessgrants (model.go, service.go), of the grant store
implementations (the in-memory repositories and the test repository), and of
the authorization decision used by the pets/events handlers.  Go machine
values are modelled as follows: time.Time instants become Int, pointers to
time.Time become Option Int, the string-typed Scope and Status aliases stay
String, maps keyed by grant id become lists of grants with pairwise distinct
ids, and strings.TrimSpace becomes the kernel-computable trimSpace below.
-/

deriving instance DecidableEq for Except

namespace PetClinic

/-- Scope constant pet:read from model.go. -/
def scopePetRead : String := "pet:read"

/-- Scope constant pet:edit_profile from model.go. -/
def scopePetEditProfile : String := "pet:edit_profile"

/-- Scope constant events:read from model.go. -/
def scopeEventsRead : String := "events:read"

/-- Scope constant events:create from model.go. -/
def scopeEventsCreate : String := "events:create"

/-- Scope constant events:void from model.go. -/
def scopeEventsVoid : String := "events:void"

/-- Scope constant attachments:add from model.go. -/
def scopeAttachmentsAdd : String := "attachments:add"

/-- Status constant invited from model.go. -/
def statusInvited : String := "invited"

/-- Status constant active from model.go. -/
def statusActive : String := "active"

/-- Status constant revoked from model.go. -/
def statusRevoked : String := "revoked"

/-- Model of strings.TrimSpace: drop leading and trailing whitespace.  It is
written over the character list of the string so that concrete instances
reduce inside the kernel. -/
def trimSpace (s : String) : String :=
  ⟨((s.data.dropWhile Char.isWhitespace).reverse.dropWhile Char.isWhitespace).reverse⟩

/-- The Grant record from model.go.  CreatedAt and UpdatedAt are time
instants modelled as Int, RevokedAt is the optional revocation instant. -/
structure Grant where
  id : String
  petID : String
  ownerUserID : String
  granteeUserID : String
  scopes : List String
  status : String
  createdAt : Int
  updatedAt : Int
  revokedAt : Option Int
deriving DecidableEq

/-- Errors a repository implementation may return.  The memory repository
produces idRequired, alreadyExists and notFound; connFailure stands for any
other cause an implementation may fail with (for example a lost database
connection), which the engine never inspects. -/
inductive RepoErr where
  | notFound
  | alreadyExists
  | idRequired
  | connFailure
deriving DecidableEq

/-- The error taxonomy of service.go: ErrInvalidInput, ErrForbidden,
ErrNotFound, ErrBadState; repo wraps a repository error that the service
returns to its caller unchanged. -/
inductive Err where
  | invalidInput
  | forbidden
  | notFound
  | badState
  | repo (e : RepoErr)
deriving DecidableEq

/-- The Repository interface the service is written against (Create, Update,
GetByID, ListByPet, GetActiveGrant, ListByGrantee); sigma is the state of the
underlying store, threaded explicitly. -/
structure RepoOps (σ : Type) where
  create : σ → Grant → Except RepoErr σ
  update : σ → Grant → Except RepoErr σ
  getByID : σ → String → Except RepoErr Grant
  listByPet : σ → String → Except RepoErr (List Grant)
  getActiveGrant : σ → String → String → Except RepoErr Grant
  listByGrantee : σ → String → Except RepoErr (List Grant)

/-- Create of the in-memory grant repository: reject an empty id, reject a
duplicate id, otherwise add the grant. -/
def memCreate (st : List Grant) (g : Grant) : Except RepoErr (List Grant) :=
  if g.id = "" then .error .idRequired
  else if st.any (fun h => h.id = g.id) then .error .alreadyExists
  else .ok (st ++ [g])

/-- Update of the in-memory grant repository: reject an empty id, fail with
notFound when no grant has this id, otherwise replace the stored grant. -/
def memUpdate (st : List Grant) (g : Grant) : Except RepoErr (List Grant) :=
  if g.id = "" then .error .idRequired
  else if st.any (fun h => h.id = g.id) then
    .ok (st.map (fun h => if h.id = g.id then g else h))
  else .error .notFound

/-- GetByID of the in-memory grant repository. -/
def memGetByID (st : List Grant) (id : String) : Except RepoErr Grant :=
  match st.find? (fun h => h.id = id) with
  | some g => .ok g
  | none => .error .notFound

/-- ListByPet of the in-memory grant repository. -/
def memListByPet (st : List Grant) (petID : String) : Except RepoErr (List Grant) :=
  .ok (st.filter (fun h => h.petID = petID))

/-- ListByGrantee of the in-memory grant repository. -/
def memListByGrantee (st : List Grant) (granteeUserID : String) : Except RepoErr (List Grant) :=
  .ok (st.filter (fun h => h.granteeUserID = granteeUserID))

/-- Whether a grant is an active grant of the given pet for the given
grantee, the selection condition of every GetActiveGrant implementation. -/
def activeMatch (petID granteeUserID : String) (g : Grant) : Bool :=
  g.petID = petID ∧ g.granteeUserID = granteeUserID ∧ g.status = statusActive

/-- The winner update of the tie-breaking GetActiveGrant loop in the memory
repository: replace the current winner when the candidate has a strictly more
recent UpdatedAt, or an equal UpdatedAt and a strictly more recent
CreatedAt. -/
def pickWinner (w g : Grant) : Grant :=
  if g.updatedAt > w.updatedAt then g
  else if g.updatedAt = w.updatedAt ∧ g.createdAt > w.createdAt then g
  else w

/-- The body of the tie-breaking GetActiveGrant loop: a non-matching grant is
skipped, the first match becomes the winner, and a later match replaces the
winner only through pickWinner. -/
def activeStep (petID granteeUserID : String) (acc : Option Grant) (g : Grant) : Option Grant :=
  if activeMatch petID granteeUserID g then
    match acc with
    | none => some g
    | some w => some (pickWinner w g)
  else acc

/-- The loop of the tie-breaking GetActiveGrant of the memory repository,
folded over the store in iteration order. -/
def memGetActiveGrantCore (st : List Grant) (petID granteeUserID : String) : Option Grant :=
  st.foldl (activeStep petID granteeUserID) none

/-- GetActiveGrant of the tie-breaking memory repository (db.go, the grantRepo
with the UpdatedAt then CreatedAt tie-break). -/
def memGetActiveGrant (st : List Grant) (petID granteeUserID : String) : Except RepoErr Grant :=
  match memGetActiveGrantCore st petID granteeUserID with
  | some g => .ok g
  | none => .error .notFound

/-- GetActiveGrant of the alternate memory repository (db.go, second grantRepo
version): return the first active match in store iteration order, with no
comparison of timestamps at all. -/
def memGetActiveGrantAlt (st : List Grant) (petID granteeUserID : String) : Except RepoErr Grant :=
  match st.find? (fun g => activeMatch petID granteeUserID g) with
  | some g => .ok g
  | none => .error .notFound

/-- The in-memory grant repository with the tie-breaking GetActiveGrant,
assembled as a Repository value. -/
def memRepo : RepoOps (List Grant) :=
  ⟨memCreate, memUpdate, memGetByID, memListByPet, memGetActiveGrant, memListByGrantee⟩

/-- A store that behaves like the memory repository except that Update fails
(with a connection-failure cause) on the grant ids selected by fail.  It
models a backend whose individual writes can fail, used to state that the
best-effort repair passes swallow such failures. -/
def memRepoWithUpdateFaults (fail : String → Bool) : RepoOps (List Grant) :=
  { memRepo with
      update := fun st g => if fail g.id then .error .connFailure else memUpdate st g }

/-- The input record of Invite from service.go. -/
structure InviteInput where
  petID : String
  ownerUserID : String
  granteeUserID : String
  scopes : List String
deriving DecidableEq

/-- The closed scope catalog used by normalizeScopesStrict in service.go. -/
def allowedScopes : List String :=
  [scopePetRead, scopePetEditProfile, scopeEventsRead, scopeEventsCreate,
    scopeEventsVoid, scopeAttachmentsAdd]

/-- The loop of normalizeScopesStrict: trim each entry, skip entries that trim
to empty, fail on an entry outside the catalog, skip duplicates, keep first
occurrences in order.  The accumulator out plays the role of both the seen
set and the output slice. -/
def normGo : List String → List String → Except Err (List String)
  | [], out => .ok out
  | raw :: rest, out =>
    let s := trimSpace raw
    if s = "" then normGo rest out
    else if s ∉ allowedScopes then .error .invalidInput
    else if s ∈ out then normGo rest out
    else normGo rest (out ++ [s])

/-- normalizeScopesStrict from service.go. -/
def normalizeScopesStrict (l : List String) : Except Err (List String) :=
  normGo l []

/-- The scope-resolution step of Invite: an empty request list gets the
default pair pet:read plus events:read, a non-empty list is normalized
strictly and must leave at least one scope. -/
def resolveScopes (l : List String) : Except Err (List String) :=
  if l = [] then .ok [scopePetRead, scopeEventsRead]
  else
    match normalizeScopesStrict l with
    | .error e => .error e
    | .ok scopes => if scopes = [] then .error .invalidInput else .ok scopes

/-- Invite from service.go (the primary version): trim and validate the three
identities, resolve scopes, then always create a brand-new grant in invited
status with a fresh id.  The fresh id produced by the uuid generator is
passed in as newID. -/
def svcInvite {σ : Type} (R : RepoOps σ) (newID : String) (now : Int) (st : σ)
    (inp : InviteInput) : Except Err Grant × σ :=
  let petID := trimSpace inp.petID
  let ownerID := trimSpace inp.ownerUserID
  let granteeID := trimSpace inp.granteeUserID
  if petID = "" ∨ ownerID = "" ∨ granteeID = "" then (.error .invalidInput, st)
  else if ownerID = granteeID then (.error .invalidInput, st)
  else
    match resolveScopes inp.scopes with
    | .error e => (.error e, st)
    | .ok scopes =>
      let g : Grant := ⟨newID, petID, ownerID, granteeID, scopes, statusInvited, now, now, none⟩
      match R.create st g with
      | .error e => (.error (.repo e), st)
      | .ok st1 => (.ok g, st1)

/-- The mutation applied to a grant by Revoke and by the best-effort repair
pass: status becomes revoked and both UpdatedAt and RevokedAt are set to the
current instant. -/
def revokedVersion (g : Grant) (now : Int) : Grant :=
  { g with status := statusRevoked, updatedAt := now, revokedAt := some now }

/-- One iteration of the loop of revokeOtherByPetAndGrantee: skip grants with
an empty id, the kept grant, grants of a different pet or grantee, and grants
already revoked; revoke the rest with a best-effort update whose failure is
ignored. -/
def revokeStep {σ : Type} (R : RepoOps σ) (keepID petID granteeID : String) (now : Int)
    (acc : σ) (g : Grant) : σ :=
  if g.id = "" ∨ g.id = keepID then acc
  else if g.petID ≠ petID ∨ g.granteeUserID ≠ granteeID then acc
  else if g.status = statusRevoked then acc
  else
    match R.update acc (revokedVersion g now) with
    | .ok acc1 => acc1
    | .error _ => acc

/-- revokeOtherByPetAndGrantee from service.go: list the grants of the pet
once, then best-effort revoke every other non-revoked grant of the same
(pet, grantee) pair.  A listing failure is returned to Accept, which ignores
it, so it leaves the store unchanged here. -/
def revokeOtherByPetAndGrantee {σ : Type} (R : RepoOps σ) (st : σ)
    (keepID petID granteeID : String) (now : Int) : σ :=
  match R.listByPet st petID with
  | .error _ => st
  | .ok items => items.foldl (revokeStep R keepID petID granteeID now) st

/-- Accept from service.go (the primary version): validate inputs, map any
GetByID failure to ErrNotFound, require the caller to be the grantee, reject
revoked grants with ErrBadState, return an already-active grant unchanged
after the repair pass, and otherwise transition invited to active, refresh
UpdatedAt, and run the repair pass. -/
def svcAccept {σ : Type} (R : RepoOps σ) (now : Int) (st : σ)
    (grantID granteeUserID : String) : Except Err Grant × σ :=
  let gid := trimSpace grantID
  let uid := trimSpace granteeUserID
  if gid = "" ∨ uid = "" then (.error .invalidInput, st)
  else
    match R.getByID st gid with
    | .error _ => (.error .notFound, st)
    | .ok g =>
      if g.granteeUserID ≠ uid then (.error .forbidden, st)
      else if g.status = statusRevoked then (.error .badState, st)
      else if g.status = statusActive then
        (.ok g, revokeOtherByPetAndGrantee R st g.id g.petID g.granteeUserID now)
      else if g.status ≠ statusInvited then (.error .badState, st)
      else
        let g1 := { g with status := statusActive, updatedAt := now }
        match R.update st g1 with
        | .error e => (.error (.repo e), st)
        | .ok st1 => (.ok g1, revokeOtherByPetAndGrantee R st1 g1.id g1.petID g1.granteeUserID now)

/-- Revoke from service.go: validate inputs, map any GetByID failure to
ErrNotFound, require the caller to be the owner, return an already-revoked
grant unchanged, and otherwise set status revoked with UpdatedAt and
RevokedAt at now. -/
def svcRevoke {σ : Type} (R : RepoOps σ) (now : Int) (st : σ)
    (grantID ownerUserID : String) : Except Err Grant × σ :=
  let gid := trimSpace grantID
  let oid := trimSpace ownerUserID
  if gid = "" ∨ oid = "" then (.error .invalidInput, st)
  else
    match R.getByID st gid with
    | .error _ => (.error .notFound, st)
    | .ok g =>
      if g.ownerUserID ≠ oid then (.error .forbidden, st)
      else if g.status = statusRevoked then (.ok g, st)
      else
        let g1 := revokedVersion g now
        match R.update st g1 with
        | .error e => (.error (.repo e), st)
        | .ok st1 => (.ok g1, st1)

/-- GetActiveGrant of the service: validate inputs and map any repository
failure to ErrNotFound. -/
def svcGetActiveGrant {σ : Type} (R : RepoOps σ) (st : σ)
    (petID granteeUserID : String) : Except Err Grant :=
  let p := trimSpace petID
  let u := trimSpace granteeUserID
  if p = "" ∨ u = "" then .error .invalidInput
  else
    match R.getActiveGrant st p u with
    | .error _ => .error .notFound
    | .ok g => .ok g

/-- HasScope from service.go. -/
def hasScope (g : Grant) (scope : String) : Bool :=
  g.scopes.any (fun s => s = scope)

/-- The authorization decision shared by getPetHandler, updatePetHandler and
the events handlers: allow the owner unconditionally, otherwise allow exactly
when the GetActiveGrant lookup succeeds and the grant holds the scope the
operation requires; every other outcome is the uniform forbidden response. -/
def authorize (st : List Grant) (callerID petOwnerID petID requiredScope : String) : Bool :=
  if petOwnerID = callerID then true
  else
    match svcGetActiveGrant memRepo st petID callerID with
    | .error _ => false
    | .ok g => hasScope g requiredScope

/-- A well-formed store state: grant ids are pairwise distinct and non-empty,
which holds of every store reachable through the repository because Create
refuses empty and duplicate ids and Update preserves ids. -/
def WFStore (st : List Grant) : Prop :=
  (st.map (fun g => g.id)).Nodup ∧ ∀ g ∈ st, g.id ≠ ""

instance : DecidablePred WFStore := fun st => by
  unfold WFStore
  infer_instance

/-! Basic lemmas about the store model. -/

lemma hasScope_iff (g : Grant) (s : String) : hasScope g s = true ↔ s ∈ g.scopes := by
  simp only [hasScope, List.any_eq_true, decide_eq_true_eq]
  constructor
  · rintro ⟨x, hx, rfl⟩
    exact hx
  · intro hs
    exact ⟨s, hs, rfl⟩

lemma mem_id_inj {st : List Grant} (hnd : (st.map (fun g => g.id)).Nodup)
    {a b : Grant} (ha : a ∈ st) (hb : b ∈ st) (hid : a.id = b.id) : a = b := by
  exact List.inj_on_of_nodup_map hnd ha hb hid

lemma find_id_of_mem {st : List Grant} (hnd : (st.map (fun g => g.id)).Nodup)
    {g : Grant} (hg : g ∈ st) : st.find? (fun h => h.id = g.id) = some g := by
  induction st with
  | nil => cases hg
  | cons a tl ih =>
    rcases List.mem_cons.mp hg with rfl | htl
    · exact List.find?_cons_of_pos _ (by simp)
    · have hane : a.id ≠ g.id := by
        intro he
        have : g.id ∈ tl.map (fun h => h.id) := List.mem_map_of_mem _ htl
        rw [← he] at this
        exact (List.nodup_cons.mp (by simpa using hnd)).1 this
      rw [List.find?_cons_of_neg _ (by simpa using hane)]
      exact ih (List.nodup_cons.mp (by simpa using hnd)).2 htl

lemma memGetByID_of_mem {st : List Grant} (hnd : (st.map (fun g => g.id)).Nodup)
    {g : Grant} (hg : g ∈ st) : memGetByID st g.id = .ok g := by
  unfold memGetByID
  rw [find_id_of_mem hnd hg]

lemma memUpdate_ok {st : List Grant} {g : Grant} (hne : g.id ≠ "")
    (hmem : ∃ h ∈ st, h.id = g.id) :
    memUpdate st g = .ok (st.map (fun h => if h.id = g.id then g else h)) := by
  unfold memUpdate
  rw [if_neg hne, if_pos]
  rw [List.any_eq_true]
  rcases hmem with ⟨h, hh, he⟩
  exact ⟨h, hh, by simpa using he⟩

lemma ids_map_of_id_eq (st : List Grant) (f : Grant → Grant)
    (hf : ∀ h ∈ st, (f h).id = h.id) :
    (st.map f).map (fun g => g.id) = st.map (fun g => g.id) := by
  rw [List.map_map]
  exact List.map_congr_left hf

lemma WFStore_map {st : List Grant} (f : Grant → Grant) (hwf : WFStore st)
    (hf : ∀ h ∈ st, (f h).id = h.id) : WFStore (st.map f) := by
  constructor
  · rw [ids_map_of_id_eq st f hf]
    exact hwf.1
  · intro h hh
    rcases List.mem_map.mp hh with ⟨a, ha, rfl⟩
    rw [hf a ha]
    exact hwf.2 a ha

lemma WFStore_append {st : List Grant} {g : Grant} (hwf : WFStore st)
    (hne : g.id ≠ "") (hfresh : ∀ h ∈ st, h.id ≠ g.id) : WFStore (st ++ [g]) := by
  constructor
  · rw [List.map_append]
    refine List.Nodup.append hwf.1 (by simp) ?_
    intro x hx hy
    simp only [List.map_cons, List.map_nil, List.mem_singleton] at hy
    rcases List.mem_map.mp hx with ⟨a, ha, rfl⟩
    exact hfresh a ha hy
  · intro h hh
    rcases List.mem_append.mp hh with hh | hh
    · exact hwf.2 h hh
    · rw [List.mem_singleton.mp hh]
      exact hne

/-! The best-effort repair pass, computed in closed form over the memory
store: it replaces every grant of the listed pet that matches the pair, is
not the kept grant, and is not already revoked, by its revoked version. -/

lemma revokeStep_skip (keepID petID granteeID : String) (now : Int) (acc : List Grant)
    (g : Grant)
    (hskip : g.id = keepID ∨ ¬(g.petID = petID ∧ g.granteeUserID = granteeID) ∨
      g.status = statusRevoked) :
    revokeStep memRepo keepID petID granteeID now acc g = acc := by
  unfold revokeStep
  by_cases h1 : g.id = "" ∨ g.id = keepID
  · rw [if_pos h1]
  · rw [if_neg h1]
    by_cases h2 : g.petID ≠ petID ∨ g.granteeUserID ≠ granteeID
    · rw [if_pos h2]
    · rw [if_neg h2]
      push_neg at h2
      have h3 : g.status = statusRevoked := by
        rcases hskip with hk | hp | hs
        · exact absurd (Or.inr hk) h1
        · exact absurd ⟨h2.1, h2.2⟩ hp
        · exact hs
      rw [if_pos h3]

lemma revokeStep_revoke (keepID petID granteeID : String) (now : Int) (acc : List Grant)
    (g : Grant) (hne : g.id ≠ "") (hk : g.id ≠ keepID) (hp : g.petID = petID)
    (hg : g.granteeUserID = granteeID) (hs : g.status ≠ statusRevoked)
    (hmem : g ∈ acc) :
    revokeStep memRepo keepID petID granteeID now acc g =
      acc.map (fun h => if h.id = g.id then revokedVersion g now else h) := by
  have hupd : memUpdate acc (revokedVersion g now) =
      .ok (acc.map (fun h =>
        if h.id = (revokedVersion g now).id then revokedVersion g now else h)) :=
    memUpdate_ok (by simpa [revokedVersion] using hne) ⟨g, hmem, by simp [revokedVersion]⟩
  unfold revokeStep
  rw [if_neg (by simp [hne, hk]), if_neg (by simp [hp, hg]), if_neg hs]
  simp only [memRepo]
  rw [hupd]
  rfl

lemma revokeFold_eq (keepID petID granteeID : String) (now : Int) (items : List Grant) :
    ∀ (acc : List Grant),
      (acc.map (fun x => x.id)).Nodup →
      (items.map (fun x => x.id)).Nodup →
      (∀ x ∈ items, x ∈ acc) →
      (∀ x ∈ acc, x.id ≠ "") →
      items.foldl (revokeStep memRepo keepID petID granteeID now) acc =
        acc.map (fun h =>
          if h ∈ items ∧ h.id ≠ keepID ∧ h.petID = petID ∧ h.granteeUserID = granteeID ∧
              h.status ≠ statusRevoked
          then revokedVersion h now else h) := by
  induction items with
  | nil =>
    intro acc _ _ _ _
    simp
  | cons g rest ih =>
    intro acc hacc hids hsub hne
    have hgacc : g ∈ acc := hsub g (List.mem_cons_self g rest)
    have hgne : g.id ≠ "" := hne g hgacc
    rw [List.map_cons] at hids
    have hids' := List.nodup_cons.mp hids
    have hgidrest : g.id ∉ rest.map (fun x => x.id) := hids'.1
    have hrest_nd : (rest.map (fun x => x.id)).Nodup := hids'.2
    have hxid : ∀ x ∈ rest, x.id ≠ g.id := by
      intro x hx he
      exact hgidrest (he ▸ List.mem_map_of_mem _ hx)
    rw [List.foldl_cons]
    by_cases hrevoke : g.id ≠ keepID ∧ g.petID = petID ∧ g.granteeUserID = granteeID ∧
        g.status ≠ statusRevoked
    · obtain ⟨hk, hp, hgr, hs⟩ := hrevoke
      rw [revokeStep_revoke keepID petID granteeID now acc g hgne hk hp hgr hs hgacc]
      set f1 : Grant → Grant := fun h => if h.id = g.id then revokedVersion g now else h
        with hf1
      have hf1_id : ∀ h, (f1 h).id = h.id := by
        intro h
        by_cases hcase : h.id = g.id
        · simp [hf1, hcase, revokedVersion]
        · simp [hf1, hcase]
      have hacc1 : ((acc.map f1).map (fun x => x.id)).Nodup := by
        rw [ids_map_of_id_eq acc f1 (fun h _ => hf1_id h)]
        exact hacc
      have hsub1 : ∀ x ∈ rest, x ∈ acc.map f1 := by
        intro x hx
        have hxacc := hsub x (List.mem_cons_of_mem g hx)
        have hfix : f1 x = x := by simp [hf1, hxid x hx]
        exact hfix ▸ List.mem_map_of_mem f1 hxacc
      have hne1 : ∀ x ∈ acc.map f1, x.id ≠ "" := by
        intro x hx
        rcases List.mem_map.mp hx with ⟨a, ha, rfl⟩
        rw [hf1_id a]
        exact hne a ha
      rw [ih (acc.map f1) hacc1 hrest_nd hsub1 hne1, List.map_map]
      apply List.map_congr_left
      intro h hh
      simp only [Function.comp_apply]
      by_cases hcase : h.id = g.id
      · have heq : h = g := mem_id_inj hacc hh hgacc hcase
        subst heq
        have hf1g : f1 h = revokedVersion h now := by simp [hf1]
        rw [hf1g]
        have hrvnot : revokedVersion h now ∉ rest := by
          intro hr
          have hmem2 : (revokedVersion h now).id ∈ rest.map (fun x => x.id) :=
            List.mem_map_of_mem _ hr
          simp only [revokedVersion] at hmem2
          exact hgidrest hmem2
        rw [if_neg (fun hc => hrvnot hc.1),
          if_pos ⟨List.mem_cons_self h rest, hk, hp, hgr, hs⟩]
      · have hf1h : f1 h = h := by simp [hf1, hcase]
        rw [hf1h]
        have hhg : h ≠ g := fun he => hcase (he ▸ rfl)
        have hmemiff : h ∈ rest ↔ h ∈ g :: rest := by simp [List.mem_cons, hhg]
        exact if_congr (and_congr_left' hmemiff) rfl rfl
    · have hskip : g.id = keepID ∨ ¬(g.petID = petID ∧ g.granteeUserID = granteeID) ∨
          g.status = statusRevoked := by
        by_cases hk : g.id = keepID
        · exact Or.inl hk
        by_cases hp : g.petID = petID ∧ g.granteeUserID = granteeID
        · refine Or.inr (Or.inr ?_)
          by_cases hs : g.status = statusRevoked
          · exact hs
          · exact absurd ⟨hk, hp.1, hp.2, hs⟩ hrevoke
        · exact Or.inr (Or.inl hp)
      rw [revokeStep_skip keepID petID granteeID now acc g hskip]
      rw [ih acc hacc hrest_nd (fun x hx => hsub x (List.mem_cons_of_mem g hx)) hne]
      apply List.map_congr_left
      intro h hh
      by_cases hcase : h = g
      · subst hcase
        rw [if_neg (fun hc => hrevoke hc.2), if_neg (fun hc => hrevoke hc.2)]
      · have hmemiff : h ∈ rest ↔ h ∈ g :: rest := by simp [List.mem_cons, hcase]
        exact if_congr (and_congr_left' hmemiff) rfl rfl

/-- Closed form of the repair pass over the memory store: on a well-formed
store it replaces exactly the non-kept, non-revoked grants of the pair by
their revoked versions. -/
lemma revokeOther_eq {st : List Grant} (keepID petID granteeID : String) (now : Int)
    (hwf : WFStore st) :
    revokeOtherByPetAndGrantee memRepo st keepID petID granteeID now =
      st.map (fun h =>
        if h.id ≠ keepID ∧ h.petID = petID ∧ h.granteeUserID = granteeID ∧
            h.status ≠ statusRevoked
        then revokedVersion h now else h) := by
  have hstep : revokeOtherByPetAndGrantee memRepo st keepID petID granteeID now =
      (st.filter (fun h => h.petID = petID)).foldl
        (revokeStep memRepo keepID petID granteeID now) st := rfl
  rw [hstep]
  have hids : ((st.filter (fun h => h.petID = petID)).map (fun x => x.id)).Nodup :=
    List.Nodup.sublist (List.Sublist.map _ (List.filter_sublist st)) hwf.1
  rw [revokeFold_eq keepID petID granteeID now (st.filter (fun h => h.petID = petID)) st
    hwf.1 hids (fun x hx => (List.mem_filter.mp hx).1) hwf.2]
  apply List.map_congr_left
  intro h hh
  have hmemiff : (h ∈ st.filter (fun x => x.petID = petID) ∧ h.id ≠ keepID ∧
      h.petID = petID ∧ h.granteeUserID = granteeID ∧ h.status ≠ statusRevoked) ↔
      (h.id ≠ keepID ∧ h.petID = petID ∧ h.granteeUserID = granteeID ∧
        h.status ≠ statusRevoked) := by
    constructor
    · rintro ⟨_, hc⟩
      exact hc
    · rintro ⟨h1, h2, h3, h4⟩
      exact ⟨List.mem_filter.mpr ⟨hh, by simpa using h2⟩, h1, h2, h3, h4⟩
  exact if_congr hmemiff rfl rfl

lemma WFStore_revokeOther {st : List Grant} (hwf : WFStore st) (k p u : String) (now : Int) :
    WFStore (revokeOtherByPetAndGrantee memRepo st k p u now) := by
  rw [revokeOther_eq k p u now hwf]
  apply WFStore_map _ hwf
  intro h _
  by_cases hc : h.id ≠ k ∧ h.petID = p ∧ h.granteeUserID = u ∧ h.status ≠ statusRevoked
  · rw [if_pos hc]
    simp [revokedVersion]
  · rw [if_neg hc]

lemma revokeOther_mem_preserved {st : List Grant} (hwf : WFStore st) {g : Grant}
    (hg : g ∈ st) (k p u : String) (now : Int)
    (hc : ¬(g.id ≠ k ∧ g.petID = p ∧ g.granteeUserID = u ∧ g.status ≠ statusRevoked)) :
    g ∈ revokeOtherByPetAndGrantee memRepo st k p u now := by
  rw [revokeOther_eq k p u now hwf]
  have hfix : (if g.id ≠ k ∧ g.petID = p ∧ g.granteeUserID = u ∧ g.status ≠ statusRevoked
      then revokedVersion g now else g) = g := if_neg hc
  exact hfix ▸ List.mem_map_of_mem _ hg

lemma revokeOther_pair_revoked {st : List Grant} (hwf : WFStore st) (k p u : String)
    (now : Int) :
    ∀ h2 ∈ revokeOtherByPetAndGrantee memRepo st k p u now,
      h2.petID = p → h2.granteeUserID = u → h2.id ≠ k → h2.status = statusRevoked := by
  rw [revokeOther_eq k p u now hwf]
  intro h2 hh2 hpet hgr hid
  rcases List.mem_map.mp hh2 with ⟨h0, hh0, heq⟩
  by_cases hc : h0.id ≠ k ∧ h0.petID = p ∧ h0.granteeUserID = u ∧ h0.status ≠ statusRevoked
  · rw [if_pos hc] at heq
    rw [← heq]
    simp [revokedVersion]
  · rw [if_neg hc] at heq
    subst heq
    by_contra hs
    exact hc ⟨hid, hpet, hgr, hs⟩

lemma memUpdate_ok_inv {st stX : List Grant} {g : Grant} (h : memUpdate st g = .ok stX) :
    stX = st.map (fun h2 => if h2.id = g.id then g else h2) := by
  unfold memUpdate at h
  by_cases h1 : g.id = ""
  · rw [if_pos h1] at h
    exact Except.noConfusion h
  · rw [if_neg h1] at h
    by_cases h2 : st.any (fun h2 => h2.id = g.id) = true
    · rw [if_pos h2] at h
      injection h with h3
      exact h3.symm
    · rw [if_neg h2] at h
      exact Except.noConfusion h

lemma memGetByID_ok_inv {st : List Grant} {x : String} {g : Grant}
    (h : memGetByID st x = .ok g) : g ∈ st ∧ g.id = x := by
  unfold memGetByID at h
  cases hfind : st.find? (fun h2 => h2.id = x) with
  | none =>
    rw [hfind] at h
    exact Except.noConfusion h
  | some g2 =>
    rw [hfind] at h
    injection h with h2
    subst h2
    exact ⟨List.mem_of_find?_eq_some hfind, by simpa using List.find?_some hfind⟩

/-- Inversion of a successful Accept over the memory store: the looked-up
grant exists, its id is the trimmed grant id, the caller is its grantee, and
either it was already active (returned unchanged with a repair pass over the
original store) or it was invited (activated, written back, then the repair
pass runs on the updated store). -/
lemma accept_ok_cases {st st1 : List Grant} {g1 : Grant} {now : Int}
    {grantID granteeUserID : String}
    (hacc : svcAccept memRepo now st grantID granteeUserID = (.ok g1, st1)) :
    trimSpace grantID ≠ "" ∧ trimSpace granteeUserID ≠ "" ∧
    ∃ g, g ∈ st ∧ g.id = trimSpace grantID ∧
      g.granteeUserID = trimSpace granteeUserID ∧
      ((g.status = statusActive ∧ g1 = g ∧
          st1 = revokeOtherByPetAndGrantee memRepo st g.id g.petID g.granteeUserID now) ∨
        (g.status = statusInvited ∧
          g1 = { g with status := statusActive, updatedAt := now } ∧
          memUpdate st g1 = .ok (st.map (fun h => if h.id = g1.id then g1 else h)) ∧
          st1 = revokeOtherByPetAndGrantee memRepo
            (st.map (fun h => if h.id = g1.id then g1 else h))
            g1.id g1.petID g1.granteeUserID now)) := by
  unfold svcAccept at hacc
  simp only [] at hacc
  split at hacc
  · exact absurd (congrArg Prod.fst hacc) (by simp)
  · next hempty =>
    push_neg at hempty
    refine ⟨hempty.1, hempty.2, ?_⟩
    split at hacc
    · exact absurd (congrArg Prod.fst hacc) (by simp)
    · next g hget =>
      have hget2 : memGetByID st (trimSpace grantID) = .ok g := hget
      obtain ⟨hmem, hid⟩ := memGetByID_ok_inv hget2
      split at hacc
      · exact absurd (congrArg Prod.fst hacc) (by simp)
      · next hgrantee =>
        push_neg at hgrantee
        split at hacc
        · exact absurd (congrArg Prod.fst hacc) (by simp)
        · next hrev =>
          split at hacc
          · next hactive =>
            injection hacc with h1 h2
            injection h1 with h3
            exact ⟨g, hmem, hid, hgrantee, Or.inl ⟨hactive, h3.symm, h2.symm⟩⟩
          · next hactive =>
            split at hacc
            · exact absurd (congrArg Prod.fst hacc) (by simp)
            · next hinvited =>
              push_neg at hinvited
              split at hacc
              · next e hupd =>
                exact absurd (congrArg Prod.fst hacc) (by simp)
              · next stX hupd =>
                have hupd2 : memUpdate st { g with status := statusActive, updatedAt := now } =
                    .ok stX := hupd
                have hstX := memUpdate_ok_inv hupd2
                have hg1 : g1 = { g with status := statusActive, updatedAt := now } := by
                  have := congrArg Prod.fst hacc
                  simp at this
                  exact this.symm
                refine ⟨g, hmem, hid, hgrantee, Or.inr ⟨hinvited, hg1, ?_, ?_⟩⟩
                · rw [hg1, ← hstX]
                  exact hupd2
                · have := congrArg Prod.snd hacc
                  simp at this
                  rw [← this, hstX, hg1]

/-- After a successful Accept over the memory store, the returned grant is
active and in the store, the store stays well formed, and every other grant
of the same (pet, grantee) pair is revoked. -/
lemma accept_ok_invariant {st st1 : List Grant} {g1 : Grant} {now : Int}
    {grantID granteeUserID : String} (hwf : WFStore st)
    (hacc : svcAccept memRepo now st grantID granteeUserID = (.ok g1, st1)) :
    g1 ∈ st1 ∧ g1.status = statusActive ∧ WFStore st1 ∧
      g1.id = trimSpace grantID ∧ g1.granteeUserID = trimSpace granteeUserID ∧
      ∀ h2 ∈ st1, h2.petID = g1.petID → h2.granteeUserID = g1.granteeUserID →
        h2.id ≠ g1.id → h2.status = statusRevoked := by
  obtain ⟨hg, hu, g, hmem, hid, hgrantee, hcases⟩ := accept_ok_cases hacc
  rcases hcases with ⟨hactive, rfl, rfl⟩ | ⟨hinvited, hg1, hupd, hst1⟩
  · refine ⟨?_, hactive, WFStore_revokeOther hwf _ _ _ now, hid, hgrantee, ?_⟩
    · exact revokeOther_mem_preserved hwf hmem _ _ _ now (fun hc => hc.1 rfl)
    · exact revokeOther_pair_revoked hwf _ _ _ now
  · subst hg1
    subst hst1
    have hf_id : ∀ h ∈ st,
        ((fun h2 => if h2.id = ({ g with status := statusActive, updatedAt := now } : Grant).id
          then { g with status := statusActive, updatedAt := now } else h2) h).id = h.id := by
      intro h _
      by_cases hcase : h.id = g.id
      · simp [hcase]
      · simp [hcase]
    have hwfM : WFStore (st.map (fun h2 =>
        if h2.id = ({ g with status := statusActive, updatedAt := now } : Grant).id
        then { g with status := statusActive, updatedAt := now } else h2)) :=
      WFStore_map _ hwf hf_id
    have hmemM : ({ g with status := statusActive, updatedAt := now } : Grant) ∈
        st.map (fun h2 =>
          if h2.id = ({ g with status := statusActive, updatedAt := now } : Grant).id
          then { g with status := statusActive, updatedAt := now } else h2) := by
      have := List.mem_map_of_mem (fun h2 =>
        if h2.id = ({ g with status := statusActive, updatedAt := now } : Grant).id
        then { g with status := statusActive, updatedAt := now } else h2) hmem
      simpa using this
    refine ⟨?_, rfl, WFStore_revokeOther hwfM _ _ _ now, hid, hgrantee, ?_⟩
    · exact revokeOther_mem_preserved hwfM hmemM _ _ _ now (fun hc => hc.1 rfl)
    · exact revokeOther_pair_revoked hwfM _ _ _ now

/-- The fault-injecting store with no faults selected is the memory store. -/
lemma memRepo_eq_no_faults : memRepoWithUpdateFaults (fun _ => false) = memRepo := rfl

/-- Replay of Accept against the fault-injecting store when the looked-up
grant is found, owned by the caller as grantee, and not failed on the primary
write: the active and invited branches compute as in the source. -/
lemma svcAccept_faulty_ok {st : List Grant} {g : Grant}
    {grantID granteeUserID : String} (fail : String → Bool) (now : Int)
    (hg : trimSpace grantID ≠ "") (hu : trimSpace granteeUserID ≠ "")
    (hwf : WFStore st) (hmem : g ∈ st) (hid : g.id = trimSpace grantID)
    (hgrantee : g.granteeUserID = trimSpace granteeUserID)
    (hfail : fail g.id = false) :
    (g.status = statusActive →
      svcAccept (memRepoWithUpdateFaults fail) now st grantID granteeUserID =
        (.ok g, revokeOtherByPetAndGrantee (memRepoWithUpdateFaults fail) st
          g.id g.petID g.granteeUserID now)) ∧
    (g.status = statusInvited →
      svcAccept (memRepoWithUpdateFaults fail) now st grantID granteeUserID =
        (.ok { g with status := statusActive, updatedAt := now },
          revokeOtherByPetAndGrantee (memRepoWithUpdateFaults fail)
            (st.map (fun h => if h.id = g.id
              then { g with status := statusActive, updatedAt := now } else h))
            g.id g.petID g.granteeUserID now)) := by
  have hget : memGetByID st (trimSpace grantID) = .ok g := by
    unfold memGetByID
    rw [← hid, find_id_of_mem hwf.1 hmem]
  constructor
  · intro hactive
    simp [svcAccept, memRepoWithUpdateFaults, memRepo, hget, hg, hu, hgrantee, hactive,
      statusActive, statusRevoked]
  · intro hinvited
    have hupd : memUpdate st ({ g with status := statusActive, updatedAt := now } : Grant) =
        .ok (st.map (fun h => if h.id = g.id
          then { g with status := statusActive, updatedAt := now } else h)) := by
      have := @memUpdate_ok st ({ g with status := statusActive, updatedAt := now } : Grant)
        (by simpa using hwf.2 g hmem) ⟨g, hmem, by simp⟩
      simpa using this
    simp only [hgrantee, statusActive] at hupd
    simp [svcAccept, memRepoWithUpdateFaults, memRepo, hget, hg, hu, hgrantee, hinvited,
      statusActive, statusRevoked, statusInvited, hfail, hupd]

/-- When every other grant of the pair is already revoked, the repair pass is
the identity on the store. -/
lemma revokeOther_id_of_invariant {st1 : List Grant} (hwf1 : WFStore st1)
    {keep pet u : String} (now : Int)
    (hinv : ∀ h2 ∈ st1, h2.petID = pet → h2.granteeUserID = u → h2.id ≠ keep →
      h2.status = statusRevoked) :
    revokeOtherByPetAndGrantee memRepo st1 keep pet u now = st1 := by
  rw [revokeOther_eq keep pet u now hwf1]
  have hfix : ∀ h ∈ st1,
      (if h.id ≠ keep ∧ h.petID = pet ∧ h.granteeUserID = u ∧ h.status ≠ statusRevoked
        then revokedVersion h now else h) = h := by
    intro h hh
    apply if_neg
    rintro ⟨h1, h2, h3, h4⟩
    exact h4 (hinv h hh h2 h3 h1)
  rw [List.map_congr_left hfix, List.map_id']

lemma memCreate_ok_inv {st stX : List Grant} {g : Grant} (h : memCreate st g = .ok stX) :
    stX = st ++ [g] := by
  unfold memCreate at h
  by_cases h1 : g.id = ""
  · rw [if_pos h1] at h
    exact Except.noConfusion h
  · rw [if_neg h1] at h
    by_cases h2 : st.any (fun h2 => h2.id = g.id) = true
    · rw [if_pos h2] at h
      exact Except.noConfusion h
    · rw [if_neg h2] at h
      injection h with h3
      exact h3.symm

/-- Invite over the memory store either fails leaving the store unchanged, or
appends exactly one brand-new grant in invited status with no revocation
instant. -/
lemma svcInvite_cases (newID : String) (now : Int) (st : List Grant) (inp : InviteInput) :
    ((svcInvite memRepo newID now st inp).2 = st ∧
      ∀ g2, (svcInvite memRepo newID now st inp).1 ≠ .ok g2) ∨
    ∃ g2, svcInvite memRepo newID now st inp = (.ok g2, st ++ [g2]) ∧
      g2.status = statusInvited ∧ g2.revokedAt = none := by
  unfold svcInvite
  simp only []
  split
  · exact Or.inl ⟨rfl, by simp⟩
  · split
    · exact Or.inl ⟨rfl, by simp⟩
    · split
      · exact Or.inl ⟨rfl, by simp⟩
      · split
        · exact Or.inl ⟨rfl, by simp⟩
        · next stX hcreate =>
          have hstX := memCreate_ok_inv hcreate
          rw [hstX]
          exact Or.inr ⟨_, rfl, rfl, rfl⟩

/-- Revoke over the memory store either leaves the store unchanged, or
replaces one non-revoked stored grant by its revoked version. -/
lemma svcRevoke_cases (now : Int) (st : List Grant) (gid oid : String) :
    (svcRevoke memRepo now st gid oid).2 = st ∨
    ∃ g0, g0 ∈ st ∧ g0.status ≠ statusRevoked ∧
      svcRevoke memRepo now st gid oid =
        (.ok (revokedVersion g0 now),
          st.map (fun h => if h.id = g0.id then revokedVersion g0 now else h)) := by
  unfold svcRevoke
  simp only []
  split
  · exact Or.inl rfl
  · split
    · exact Or.inl rfl
    · next g0 hget =>
      have hget2 : memGetByID st (trimSpace gid) = .ok g0 := hget
      obtain ⟨hmem0, _⟩ := memGetByID_ok_inv hget2
      split
      · exact Or.inl rfl
      · split
        · exact Or.inl rfl
        · next hrev =>
          split
          · exact Or.inl rfl
          · next stX hupd =>
            have hupd2 : memUpdate st (revokedVersion g0 now) = .ok stX := hupd
            have hstX := memUpdate_ok_inv hupd2
            rw [hstX]
            exact Or.inr ⟨g0, hmem0, hrev, rfl⟩

/-- Accept over the memory store either leaves the store unchanged, or runs
the repair pass after confirming an active grant, or activates an invited
grant in place and then runs the repair pass. -/
lemma svcAccept_cases (now : Int) (st : List Grant) (gid uid : String) :
    (svcAccept memRepo now st gid uid).2 = st ∨
    (∃ g0, g0 ∈ st ∧ g0.status = statusActive ∧
      (svcAccept memRepo now st gid uid).2 =
        revokeOtherByPetAndGrantee memRepo st g0.id g0.petID g0.granteeUserID now) ∨
    (∃ g0, g0 ∈ st ∧ g0.status = statusInvited ∧
      (svcAccept memRepo now st gid uid).2 =
        revokeOtherByPetAndGrantee memRepo
          (st.map (fun h => if h.id = g0.id
            then { g0 with status := statusActive, updatedAt := now } else h))
          g0.id g0.petID g0.granteeUserID now) := by
  unfold svcAccept
  simp only []
  split
  · exact Or.inl rfl
  · split
    · exact Or.inl rfl
    · next g0 hget =>
      have hget2 : memGetByID st (trimSpace gid) = .ok g0 := hget
      obtain ⟨hmem0, _⟩ := memGetByID_ok_inv hget2
      split
      · exact Or.inl rfl
      · split
        · exact Or.inl rfl
        · split
          · next hactive =>
            exact Or.inr (Or.inl ⟨g0, hmem0, hactive, rfl⟩)
          · split
            · exact Or.inl rfl
            · next hninv =>
              push_neg at hninv
              split
              · exact Or.inl rfl
              · next stX hupd =>
                have hupd2 : memUpdate st
                    ({ g0 with status := statusActive, updatedAt := now } : Grant) =
                    .ok stX := hupd
                have hstX := memUpdate_ok_inv hupd2
                rw [hstX]
                exact Or.inr (Or.inr ⟨g0, hmem0, hninv, rfl⟩)

/-- The revoked-at consistency invariant of a single grant: the revocation
instant is set exactly when the status is revoked. -/
def revokedAtConsistent (g : Grant) : Prop :=
  g.revokedAt.isSome = true ↔ g.status = statusRevoked

instance : DecidablePred revokedAtConsistent := fun g => by
  unfold revokedAtConsistent
  infer_instance

lemma revokeOther_consistent {st : List Grant} (hwf : WFStore st)
    (hall : ∀ h ∈ st, revokedAtConsistent h) (k p u : String) (now : Int) :
    ∀ h2 ∈ revokeOtherByPetAndGrantee memRepo st k p u now, revokedAtConsistent h2 := by
  rw [revokeOther_eq k p u now hwf]
  intro h2 hh2
  rcases List.mem_map.mp hh2 with ⟨h0, hh0, rfl⟩
  by_cases hc : h0.id ≠ k ∧ h0.petID = p ∧ h0.granteeUserID = u ∧ h0.status ≠ statusRevoked
  · rw [if_pos hc]
    simp [revokedAtConsistent, revokedVersion]
  · rw [if_neg hc]
    exact hall h0 hh0

/-! The claims. -/

/-- C1: for a protected pet or events operation, the handler decision allows
the caller exactly when the caller is the owner of the pet (owner bypass,
whatever grants exist), or the GetActiveGrant lookup succeeds with a grant
whose scope set contains the scope the operation requires; every other case
is the uniform forbidden outcome. -/
theorem authorize_iff_owner_or_scoped_grant (st : List Grant)
    (callerID petOwnerID petID requiredScope : String) :
    authorize st callerID petOwnerID petID requiredScope = true ↔
      (callerID = petOwnerID ∨
        ∃ g, svcGetActiveGrant memRepo st petID callerID = .ok g ∧
          requiredScope ∈ g.scopes) := by
  unfold authorize
  by_cases howner : petOwnerID = callerID
  · rw [if_pos howner]
    exact iff_of_true rfl (Or.inl howner.symm)
  · rw [if_neg howner]
    cases hlook : svcGetActiveGrant memRepo st petID callerID with
    | error e =>
      constructor
      · intro hfalse
        simp at hfalse
      · rintro (hc | ⟨g, hgl, _⟩)
        · exact absurd hc.symm howner
        · exact Except.noConfusion hgl
    | ok g =>
      constructor
      · intro hsc
        exact Or.inr ⟨g, rfl, (hasScope_iff g requiredScope).mp hsc⟩
      · rintro (hc | ⟨g2, hgl, hsc⟩)
        · exact absurd hc.symm howner
        · cases hgl
          exact (hasScope_iff g requiredScope).mpr hsc

/-- C2: after a successful Accept, including the idempotent already-active
case, the accepted grant is the only non-revoked grant of its
(pet, grantee) pair left in the store, because the accept path revokes every
other non-revoked grant of the pair; and a failure to revoke one of those
duplicates does not fail the accept, which still returns the same grant. -/
theorem accept_enforces_single_active (st : List Grant) (now : Int)
    (grantID granteeUserID : String) (g1 : Grant) (st1 : List Grant)
    (hwf : WFStore st)
    (hacc : svcAccept memRepo now st grantID granteeUserID = (.ok g1, st1)) :
    g1 ∈ st1 ∧ g1.status = statusActive ∧
      (∀ h2 ∈ st1, h2.petID = g1.petID → h2.granteeUserID = g1.granteeUserID →
        h2.id ≠ g1.id → h2.status = statusRevoked) ∧
      ∀ fail : String → Bool, fail g1.id = false →
        ∃ st2, svcAccept (memRepoWithUpdateFaults fail) now st grantID granteeUserID =
          (.ok g1, st2) := by
  obtain ⟨hmem1, hstat1, _, _, _, hpair⟩ := accept_ok_invariant hwf hacc
  refine ⟨hmem1, hstat1, hpair, ?_⟩
  intro fail hfail
  obtain ⟨hg, hu, g, hmem, hid, hgrantee, hcases⟩ := accept_ok_cases hacc
  rcases hcases with ⟨hactive, hg1, _⟩ | ⟨hinvited, hg1, _, _⟩
  · subst hg1
    exact ⟨_, (svcAccept_faulty_ok fail now hg hu hwf hmem hid hgrantee hfail).1 hactive⟩
  · subst hg1
    have hfail2 : fail g.id = false := by simpa using hfail
    exact ⟨_, (svcAccept_faulty_ok fail now hg hu hwf hmem hid hgrantee hfail2).2 hinvited⟩

/-- C8: Accept is idempotent: accepting an invited grant with the matching
grantee yields an active grant, and repeating the call with the same
arguments returns the very same grant and the very same store, so the second
call performs no state change (its repair pass is empty) and in particular
does not refresh the updated timestamp. -/
theorem accept_idempotent_second_call_noop (st : List Grant) (g : Grant)
    (now1 now2 : Int) (hwf : WFStore st) (hg : g ∈ st)
    (hinv : g.status = statusInvited) (hidT : trimSpace g.id = g.id)
    (huT : trimSpace g.granteeUserID = g.granteeUserID) (huN : g.granteeUserID ≠ "") :
    ∃ g1 st1,
      svcAccept memRepo now1 st g.id g.granteeUserID = (.ok g1, st1) ∧
      g1.status = statusActive ∧ g1.id = g.id ∧ g1.updatedAt = now1 ∧
      svcAccept memRepo now2 st1 g.id g.granteeUserID = (.ok g1, st1) := by
  have hgne : g.id ≠ "" := hwf.2 g hg
  have hgT : trimSpace g.id ≠ "" := by rw [hidT]; exact hgne
  have huT2 : trimSpace g.granteeUserID ≠ "" := by rw [huT]; exact huN
  have hrep1 := (svcAccept_faulty_ok (fun _ => false) now1 hgT huT2 hwf hg hidT.symm
    huT.symm rfl).2 hinv
  rw [memRepo_eq_no_faults] at hrep1
  obtain ⟨hmem1, hstat1, hwf1, hid1, hu1, hpair1⟩ := accept_ok_invariant hwf hrep1
  have hrep2 := (svcAccept_faulty_ok (fun _ => false) now2 hgT huT2 hwf1 hmem1 hid1
    hu1 rfl).1 hstat1
  rw [memRepo_eq_no_faults] at hrep2
  rw [revokeOther_id_of_invariant hwf1 now2 hpair1] at hrep2
  exact ⟨_, _, hrep1, hstat1, rfl, rfl, hrep2⟩

/-- C4: revoked is terminal: a revoked grant survives every Invite, Accept
and Revoke call completely unchanged (in particular it is never deleted and
its status never changes), Accept on it by its grantee answers ErrBadState,
and Revoke on it by its owner returns it unchanged with no error. -/
theorem revoked_is_terminal (st : List Grant) (g : Grant) (now : Int)
    (hwf : WFStore st) (hg : g ∈ st) (hrev : g.status = statusRevoked)
    (hidT : trimSpace g.id = g.id) (huT : trimSpace g.granteeUserID = g.granteeUserID)
    (huN : g.granteeUserID ≠ "") (hoT : trimSpace g.ownerUserID = g.ownerUserID)
    (hoN : g.ownerUserID ≠ "") :
    (∀ newID now2 inp, g ∈ (svcInvite memRepo newID now2 st inp).2) ∧
    (∀ now2 gid uid, g ∈ (svcAccept memRepo now2 st gid uid).2) ∧
    (∀ now2 gid oid, g ∈ (svcRevoke memRepo now2 st gid oid).2) ∧
    svcAccept memRepo now st g.id g.granteeUserID = (.error .badState, st) ∧
    svcRevoke memRepo now st g.id g.ownerUserID = (.ok g, st) := by
  have hrevne : ∀ g0 : Grant, g0.status ≠ statusRevoked → g ≠ g0 := by
    intro g0 hne he
    exact hne (he ▸ hrev)
  refine ⟨?_, ?_, ?_, ?_, ?_⟩
  · intro newID now2 inp
    rcases svcInvite_cases newID now2 st inp with ⟨hst, _⟩ | ⟨g2, heq, _, _⟩
    · rw [hst]
      exact hg
    · rw [heq]
      exact List.mem_append_left _ hg
  · intro now2 gid uid
    rcases svcAccept_cases now2 st gid uid with hst | ⟨g0, hg0, hact, heq⟩ | ⟨g0, hg0, hinv0, heq⟩
    · rw [hst]
      exact hg
    · rw [heq]
      refine revokeOther_mem_preserved hwf hg _ _ _ now2 ?_
      rintro ⟨-, -, -, h4⟩
      exact h4 hrev
    · rw [heq]
      have hne0 : g ≠ g0 := hrevne g0 (by rw [hinv0]; decide)
      have hidne : g.id ≠ g0.id := fun he => hne0 (mem_id_inj hwf.1 hg hg0 he)
      have hfix : (fun h => if h.id = g0.id
          then ({ g0 with status := statusActive, updatedAt := now2 } : Grant) else h) g = g :=
        if_neg hidne
      have hgM : g ∈ st.map (fun h => if h.id = g0.id
          then ({ g0 with status := statusActive, updatedAt := now2 } : Grant) else h) :=
        hfix ▸ List.mem_map_of_mem _ hg
      have hwfM : WFStore (st.map (fun h => if h.id = g0.id
          then ({ g0 with status := statusActive, updatedAt := now2 } : Grant) else h)) := by
        refine WFStore_map _ hwf ?_
        intro h _
        by_cases hcase : h.id = g0.id
        · simp [hcase]
        · simp [hcase]
      refine revokeOther_mem_preserved hwfM hgM _ _ _ now2 ?_
      rintro ⟨-, -, -, h4⟩
      exact h4 hrev
  · intro now2 gid oid
    rcases svcRevoke_cases now2 st gid oid with hst | ⟨g0, hg0, hnrev, heq⟩
    · rw [hst]
      exact hg
    · have hsnd := congrArg Prod.snd heq
      simp only [] at hsnd
      rw [hsnd]
      have hne0 : g ≠ g0 := hrevne g0 hnrev
      have hidne : g.id ≠ g0.id := fun he => hne0 (mem_id_inj hwf.1 hg hg0 he)
      have hfix : (fun h => if h.id = g0.id then revokedVersion g0 now2 else h) g = g :=
        if_neg hidne
      exact hfix ▸ List.mem_map_of_mem _ hg
  · have hget : memGetByID st (trimSpace g.id) = .ok g := by
      rw [hidT]
      exact memGetByID_of_mem hwf.1 hg
    have hgT : trimSpace g.id ≠ "" := by rw [hidT]; exact hwf.2 g hg
    have huT2 : trimSpace g.granteeUserID ≠ "" := by rw [huT]; exact huN
    simp [svcAccept, memRepo, hget, hgT, huT2, huT, huN, hrev, statusRevoked]
  · have hget : memGetByID st (trimSpace g.id) = .ok g := by
      rw [hidT]
      exact memGetByID_of_mem hwf.1 hg
    have hgT : trimSpace g.id ≠ "" := by rw [hidT]; exact hwf.2 g hg
    have hoT2 : trimSpace g.ownerUserID ≠ "" := by rw [hoT]; exact hoN
    simp [svcRevoke, memRepo, hget, hgT, hoT2, hoT, hoN, hrev, statusRevoked]

/-- C9: the revoked-at timestamp is set exactly when the status is revoked:
Invite creates grants in invited status with no revocation instant, and every
Invite, Accept or Revoke call (including the repair passes, which set status
and revocation instant in the same update) maps a consistent store to a
consistent store. -/
theorem revokedAt_iff_status_revoked (st : List Grant) (hwf : WFStore st)
    (hall : ∀ h ∈ st, revokedAtConsistent h) :
    (∀ newID now inp g2 st2, svcInvite memRepo newID now st inp = (.ok g2, st2) →
      g2.status = statusInvited ∧ g2.revokedAt = none) ∧
    (∀ newID now inp, ∀ h2 ∈ (svcInvite memRepo newID now st inp).2,
      revokedAtConsistent h2) ∧
    (∀ now gid uid, ∀ h2 ∈ (svcAccept memRepo now st gid uid).2,
      revokedAtConsistent h2) ∧
    (∀ now gid oid, ∀ h2 ∈ (svcRevoke memRepo now st gid oid).2,
      revokedAtConsistent h2) := by
  refine ⟨?_, ?_, ?_, ?_⟩
  · intro newID now inp g2 st2 hok
    rcases svcInvite_cases newID now st inp with ⟨-, hne⟩ | ⟨g3, heq, hs3, hr3⟩
    · exact absurd (congrArg Prod.fst hok) (hne g2)
    · rw [heq] at hok
      injection hok with h1 _
      injection h1 with h1
      rw [← h1]
      exact ⟨hs3, hr3⟩
  · intro newID now inp h2 hh2
    rcases svcInvite_cases newID now st inp with ⟨hst, -⟩ | ⟨g3, heq, hs3, hr3⟩
    · rw [hst] at hh2
      exact hall h2 hh2
    · rw [heq] at hh2
      rcases List.mem_append.mp hh2 with hh2 | hh2
      · exact hall h2 hh2
      · rw [List.mem_singleton.mp hh2]
        simp [revokedAtConsistent, hs3, hr3, statusInvited, statusRevoked]
  · intro now gid uid h2 hh2
    rcases svcAccept_cases now st gid uid with hst | ⟨g0, hg0, hact, heq⟩ |
      ⟨g0, hg0, hinv0, heq⟩
    · rw [hst] at hh2
      exact hall h2 hh2
    · rw [heq] at hh2
      exact revokeOther_consistent hwf hall _ _ _ now h2 hh2
    · rw [heq] at hh2
      have hwfM : WFStore (st.map (fun h => if h.id = g0.id
          then ({ g0 with status := statusActive, updatedAt := now } : Grant) else h)) := by
        refine WFStore_map _ hwf ?_
        intro h _
        by_cases hcase : h.id = g0.id
        · simp [hcase]
        · simp [hcase]
      have hallM : ∀ h ∈ st.map (fun h => if h.id = g0.id
          then ({ g0 with status := statusActive, updatedAt := now } : Grant) else h),
          revokedAtConsistent h := by
        intro h hh
        rcases List.mem_map.mp hh with ⟨h0, hh0, rfl⟩
        by_cases hcase : h0.id = g0.id
        · rw [if_pos hcase]

          have hg0c := hall g0 hg0
          have hg0r : g0.revokedAt.isSome = false := by
            rcases hb : g0.revokedAt.isSome with _ | _
            · rfl
            · exact absurd (hinv0 ▸ hg0c.mp hb) (by simp [statusInvited, statusRevoked])
          simp only [revokedAtConsistent] at *
          constructor
          · intro hsome
            exact absurd (by simpa using hsome) (by simp [hg0r])
          · intro hst2
            exact absurd hst2 (by simp [statusActive, statusRevoked])
        · rw [if_neg hcase]
          exact hall h0 hh0
      exact revokeOther_consistent hwfM hallM _ _ _ now h2 hh2
  · intro now gid oid h2 hh2
    rcases svcRevoke_cases now st gid oid with hst | ⟨g0, hg0, hnrev, heq⟩
    · rw [hst] at hh2
      exact hall h2 hh2
    · have hsnd := congrArg Prod.snd heq
      simp only [] at hsnd
      rw [hsnd] at hh2
      rcases List.mem_map.mp hh2 with ⟨h0, hh0, rfl⟩
      by_cases hcase : h0.id = g0.id
      · rw [if_pos hcase]
        simp [revokedAtConsistent, revokedVersion]
      · rw [if_neg hcase]
        exact hall h0 hh0

/-- C10: the engine collapses every store lookup failure into ErrNotFound:
whatever error GetByID returns, Accept and Revoke answer ErrNotFound with the
store untouched, and whatever error the store GetActiveGrant returns, the
service GetActiveGrant answers ErrNotFound, so the caller cannot tell a
missing grant from a failing store. -/
theorem lookup_failures_collapse_to_notFound {σ : Type} (R : RepoOps σ) (st : σ)
    (now : Int) (grantID userID petID : String) (e1 e2 e3 : RepoErr)
    (hg : trimSpace grantID ≠ "") (hu : trimSpace userID ≠ "")
    (hp : trimSpace petID ≠ "") :
    (R.getByID st (trimSpace grantID) = .error e1 →
      svcAccept R now st grantID userID = (.error .notFound, st)) ∧
    (R.getByID st (trimSpace grantID) = .error e2 →
      svcRevoke R now st grantID userID = (.error .notFound, st)) ∧
    (R.getActiveGrant st (trimSpace petID) (trimSpace userID) = .error e3 →
      svcGetActiveGrant R st petID userID = .error .notFound) := by
  refine ⟨?_, ?_, ?_⟩
  · intro herr
    unfold svcAccept
    rw [if_neg (by simp [hg, hu]), herr]
  · intro herr
    unfold svcRevoke
    rw [if_neg (by simp [hg, hu]), herr]
  · intro herr
    unfold svcGetActiveGrant
    rw [if_neg (by simp [hp, hu]), herr]

/-- C7: Revoke answers ErrNotFound when no grant has the id, ErrForbidden
when the caller is not the owner of the grant (so the grantee can never
revoke its own grant), returns an already-revoked grant unchanged with no
error, and otherwise replaces the grant by its revoked version with both the
updated and the revoked timestamps at now. -/
theorem revoke_behavior (st : List Grant) (now : Int) (grantID ownerUserID : String)
    (hwf : WFStore st) (hgid : trimSpace grantID ≠ "") (hoid : trimSpace ownerUserID ≠ "") :
    ((∀ g ∈ st, g.id ≠ trimSpace grantID) →
      svcRevoke memRepo now st grantID ownerUserID = (.error .notFound, st)) ∧
    ∀ g ∈ st, g.id = trimSpace grantID →
      ((g.ownerUserID ≠ trimSpace ownerUserID →
        svcRevoke memRepo now st grantID ownerUserID = (.error .forbidden, st)) ∧
      (g.ownerUserID = trimSpace ownerUserID →
        ((g.status = statusRevoked →
          svcRevoke memRepo now st grantID ownerUserID = (.ok g, st)) ∧
        (g.status ≠ statusRevoked →
          svcRevoke memRepo now st grantID ownerUserID =
            (.ok (revokedVersion g now),
              st.map (fun h => if h.id = g.id then revokedVersion g now else h)) ∧
          (revokedVersion g now).status = statusRevoked ∧
          (revokedVersion g now).updatedAt = now ∧
          (revokedVersion g now).revokedAt = some now)))) := by
  constructor
  · intro hno
    have hfind : st.find? (fun h => h.id = trimSpace grantID) = none :=
      List.find?_eq_none.mpr (fun x hx => by simpa using hno x hx)
    have hget : memGetByID st (trimSpace grantID) = .error .notFound := by
      unfold memGetByID
      rw [hfind]
    simp [svcRevoke, memRepo, hget, hgid, hoid]
  · intro g hgmem hgeq
    have hget : memGetByID st (trimSpace grantID) = .ok g := by
      have := memGetByID_of_mem hwf.1 hgmem
      rw [hgeq] at this
      exact this
    constructor
    · intro hne
      simp [svcRevoke, memRepo, hget, hgid, hoid, hne]
    · intro ho
      constructor
      · intro hrev
        simp [svcRevoke, memRepo, hget, hgid, hoid, ho, hrev, statusRevoked]
      · intro hnrev
        have hupd : memUpdate st (revokedVersion g now) =
            .ok (st.map (fun h => if h.id = g.id then revokedVersion g now else h)) := by
          have := @memUpdate_ok st (revokedVersion g now)
            (by simpa [revokedVersion] using hwf.2 g hgmem)
            ⟨g, hgmem, by simp [revokedVersion]⟩
          simpa [revokedVersion] using this
        refine ⟨?_, rfl, rfl, rfl⟩
        simp [svcRevoke, memRepo, hget, hgid, hoid, ho, hnrev, hupd]

/-- Invite input of the first call at the C3 failing input, as in the dedup
test of the package. -/
def reInviteIn1 : InviteInput := ⟨"pet-1", "owner-1", "delegate-1", [scopeEventsRead]⟩

/-- Invite input of the second call at the C3 failing input: the same triple
with a different scope list. -/
def reInviteIn2 : InviteInput :=
  ⟨"pet-1", "owner-1", "delegate-1", [scopeEventsRead, scopeEventsCreate]⟩

/-- The grant created by the first Invite call at the C3 failing input; the
id stands for the first fresh uuid. -/
def reInviteG1 : Grant :=
  ⟨"grant-1", "pet-1", "owner-1", "delegate-1", [scopeEventsRead], statusInvited,
    100, 100, none⟩

/-- The grant created by the second Invite call at the C3 failing input; the
id stands for the second fresh uuid, necessarily distinct from the first. -/
def reInviteG2 : Grant :=
  ⟨"grant-2", "pet-1", "owner-1", "delegate-1", [scopeEventsRead, scopeEventsCreate],
    statusInvited, 105, 105, none⟩

/-- C3 (code bug): Invite of service.go never deduplicates: re-inviting the
same (pet, owner, grantee) triple while the first grant is still invited
creates and returns a second grant under a fresh id, leaving two non-revoked
grants for the triple in the store, against the spec and against the dedup
the package test and the alternate concatenated Invite version demand. -/
theorem invite_no_dedup_on_reinvite :
    svcInvite memRepo "grant-1" 100 [] reInviteIn1 = (.ok reInviteG1, [reInviteG1]) ∧
    svcInvite memRepo "grant-2" 105 [reInviteG1] reInviteIn2 =
      (.ok reInviteG2, [reInviteG1, reInviteG2]) ∧
    reInviteG1.id ≠ reInviteG2.id ∧
    reInviteG1.status ≠ statusRevoked ∧ reInviteG2.status ≠ statusRevoked := by
  decide

lemma normGo_error_iff (l : List String) :
    ∀ out : List String, normGo l out = .error .invalidInput ↔
      ∃ raw ∈ l, trimSpace raw ≠ "" ∧ trimSpace raw ∉ allowedScopes := by
  induction l with
  | nil =>
    intro out
    simp [normGo]
  | cons raw rest ih =>
    intro out
    unfold normGo
    by_cases h1 : trimSpace raw = ""
    · rw [if_pos h1, ih]
      constructor
      · rintro ⟨x, hx, hc⟩
        exact ⟨x, List.mem_cons_of_mem _ hx, hc⟩
      · rintro ⟨x, hx, hc⟩
        rcases List.mem_cons.mp hx with rfl | hx2
        · exact absurd h1 hc.1
        · exact ⟨x, hx2, hc⟩
    · rw [if_neg h1]
      by_cases h2 : trimSpace raw ∉ allowedScopes
      · rw [if_pos h2]
        constructor
        · intro _
          exact ⟨raw, List.mem_cons_self raw rest, h1, h2⟩
        · intro _
          rfl
      · rw [if_neg h2]
        push_neg at h2
        have htail : ∀ out2 : List String, (normGo rest out2 = .error .invalidInput ↔
            ∃ x ∈ raw :: rest, trimSpace x ≠ "" ∧ trimSpace x ∉ allowedScopes) := by
          intro out2
          rw [ih]
          constructor
          · rintro ⟨x, hx, hc⟩
            exact ⟨x, List.mem_cons_of_mem _ hx, hc⟩
          · rintro ⟨x, hx, hc⟩
            rcases List.mem_cons.mp hx with rfl | hx2
            · exact absurd h2 hc.2
            · exact ⟨x, hx2, hc⟩
        by_cases h3 : trimSpace raw ∈ out
        · rw [if_pos h3]
          exact htail out
        · rw [if_neg h3]
          exact htail (out ++ [trimSpace raw])

lemma normGo_ok_nil_iff (l : List String) :
    ∀ out res : List String, normGo l out = .ok res →
      (res = [] ↔ (out = [] ∧ ∀ raw ∈ l, trimSpace raw = "")) := by
  induction l with
  | nil =>
    intro out res h
    injection h with h1
    subst h1
    simp
  | cons raw rest ih =>
    intro out res h
    unfold normGo at h
    by_cases h1 : trimSpace raw = ""
    · rw [if_pos h1] at h
      rw [ih out res h]
      simp [h1]
    · rw [if_neg h1] at h
      by_cases h2 : trimSpace raw ∉ allowedScopes
      · rw [if_pos h2] at h
        exact Except.noConfusion h
      · rw [if_neg h2] at h
        by_cases h3 : trimSpace raw ∈ out
        · rw [if_pos h3] at h
          rw [ih out res h]
          constructor
          · rintro ⟨ho, hrest⟩
            subst ho
            cases h3
          · rintro ⟨ho, hallc⟩
            exact absurd (hallc raw (List.mem_cons_self raw rest)) h1
        · rw [if_neg h3] at h
          rw [ih (out ++ [trimSpace raw]) res h]
          constructor
          · rintro ⟨happ, -⟩
            exact absurd happ (by simp)
          · rintro ⟨-, hallc⟩
            exact absurd (hallc raw (List.mem_cons_self raw rest)) h1

lemma normGo_error_val (l : List String) :
    ∀ out e, normGo l out = .error e → e = Err.invalidInput := by
  induction l with
  | nil =>
    intro out e h
    exact Except.noConfusion h
  | cons raw rest ih =>
    intro out e h
    unfold normGo at h
    by_cases h1 : trimSpace raw = ""
    · rw [if_pos h1] at h
      exact ih out e h
    · rw [if_neg h1] at h
      by_cases h2 : trimSpace raw ∉ allowedScopes
      · rw [if_pos h2] at h
        injection h with h3
        exact h3.symm
      · rw [if_neg h2] at h
        by_cases h3 : trimSpace raw ∈ out
        · rw [if_pos h3] at h
          exact ih out e h
        · rw [if_neg h3] at h
          exact ih _ e h

/-- The C6 counterexample input: a non-empty scope list containing an entry
outside the catalog that trims to empty. -/
def blankScopeIn : InviteInput :=
  ⟨"pet-1", "owner-1", "delegate-1", [scopeEventsRead, " "]⟩

/-- The grant the C6 counterexample call creates. -/
def blankScopeG : Grant :=
  ⟨"grant-1", "pet-1", "owner-1", "delegate-1", [scopeEventsRead], statusInvited,
    10, 10, none⟩

/-- C6 (counterexample): the literal claim fails on the code: the requested
list holds the entry consisting of one space, which is outside the six-scope
catalog and makes the list non-empty, yet Invite succeeds and creates a
grant, because entries that trim to empty are silently dropped. -/
theorem invite_unknown_scope_strictness_counterexample :
    blankScopeIn.scopes ≠ [] ∧ " " ∈ blankScopeIn.scopes ∧ " " ∉ allowedScopes ∧
    svcInvite memRepo "grant-1" 10 [] blankScopeIn = (.ok blankScopeG, [blankScopeG]) := by
  decide

/-- C6 (amended): with valid identities and a fresh id, Invite with an empty
scope list creates a grant holding exactly pet:read and events:read; with a
non-empty list, entries are trimmed, entries trimming to empty are dropped,
and the call fails with InvalidInput leaving the store unchanged exactly when
some entry trims to a non-empty string outside the catalog or every entry
trims to empty. -/
theorem invite_scope_policy (st : List Grant) (newID : String) (now : Int)
    (inp : InviteInput)
    (hpet : trimSpace inp.petID ≠ "") (hown : trimSpace inp.ownerUserID ≠ "")
    (hgr : trimSpace inp.granteeUserID ≠ "")
    (hdiff : trimSpace inp.ownerUserID ≠ trimSpace inp.granteeUserID)
    (hid : newID ≠ "") (hfresh : ∀ g ∈ st, g.id ≠ newID) :
    (inp.scopes = [] →
      ∃ g, svcInvite memRepo newID now st inp = (.ok g, st ++ [g]) ∧
        g.scopes = [scopePetRead, scopeEventsRead]) ∧
    (inp.scopes ≠ [] →
      (svcInvite memRepo newID now st inp = (.error .invalidInput, st) ↔
        ((∃ raw ∈ inp.scopes, trimSpace raw ≠ "" ∧ trimSpace raw ∉ allowedScopes) ∨
          ∀ raw ∈ inp.scopes, trimSpace raw = ""))) := by
  have hcr : ∀ g : Grant, g.id = newID → memCreate st g = .ok (st ++ [g]) := by
    intro g hgid
    unfold memCreate
    rw [if_neg (by rw [hgid]; exact hid), if_neg ?_]
    intro hany
    rcases List.any_eq_true.mp hany with ⟨x, hx, hxe⟩
    exact hfresh x hx (by simpa [hgid] using hxe)
  constructor
  · intro hempty
    refine ⟨⟨newID, trimSpace inp.petID, trimSpace inp.ownerUserID,
      trimSpace inp.granteeUserID, [scopePetRead, scopeEventsRead], statusInvited,
      now, now, none⟩, ?_, rfl⟩
    simp [svcInvite, memRepo, resolveScopes, hempty, hpet, hown, hgr, hdiff, hcr]
  · intro hnonempty
    cases hres : normGo inp.scopes [] with
    | error e =>
      have he := normGo_error_val inp.scopes [] e hres
      subst he
      have hbad := (normGo_error_iff inp.scopes []).mp hres
      refine iff_of_true ?_ (Or.inl hbad)
      simp [svcInvite, memRepo, resolveScopes, normalizeScopesStrict, hnonempty,
        hpet, hown, hgr, hdiff, hres]
    | ok res =>
      by_cases hnil : res = []
      · subst hnil
        have hallempty := ((normGo_ok_nil_iff inp.scopes [] [] hres).mp rfl).2
        refine iff_of_true ?_ (Or.inr hallempty)
        simp [svcInvite, memRepo, resolveScopes, normalizeScopesStrict, hnonempty,
          hpet, hown, hgr, hdiff, hres]
      · refine iff_of_false ?_ ?_
        · intro heq
          have : (svcInvite memRepo newID now st inp).1 = .error .invalidInput :=
            congrArg Prod.fst heq
          rw [show svcInvite memRepo newID now st inp =
            (.ok (⟨newID, trimSpace inp.petID, trimSpace inp.ownerUserID,
              trimSpace inp.granteeUserID, res, statusInvited, now, now, none⟩ : Grant),
              st ++ [⟨newID, trimSpace inp.petID, trimSpace inp.ownerUserID,
              trimSpace inp.granteeUserID, res, statusInvited, now, now, none⟩]) from by
            simp [svcInvite, memRepo, resolveScopes, normalizeScopesStrict, hnonempty,
              hpet, hown, hgr, hdiff, hres, hnil, hcr]] at this
          exact Except.noConfusion this
        · rintro (hbad | hallempty)
          · have := (normGo_error_iff inp.scopes []).mpr hbad
            rw [hres] at this
            exact Except.noConfusion this
          · exact hnil (((normGo_ok_nil_iff inp.scopes [] res hres).mpr
              ⟨rfl, hallempty⟩))

/-- The non-strict tie-break order of GetActiveGrant: a is not more recent
than b under the updated-at then created-at comparison. -/
def notNewer (a b : Grant) : Prop :=
  a.updatedAt < b.updatedAt ∨ (a.updatedAt = b.updatedAt ∧ a.createdAt ≤ b.createdAt)

lemma notNewer_refl (a : Grant) : notNewer a a := Or.inr ⟨rfl, le_refl _⟩

lemma notNewer_trans {a b c : Grant} (h1 : notNewer a b) (h2 : notNewer b c) :
    notNewer a c := by
  unfold notNewer at *
  omega

lemma pickWinner_props (w g : Grant) :
    (pickWinner w g = w ∨ pickWinner w g = g) ∧
      notNewer w (pickWinner w g) ∧ notNewer g (pickWinner w g) := by
  unfold pickWinner notNewer
  by_cases h1 : g.updatedAt > w.updatedAt
  · rw [if_pos h1]
    exact ⟨Or.inr rfl, Or.inl h1, Or.inr ⟨rfl, le_refl _⟩⟩
  · rw [if_neg h1]
    by_cases h2 : g.updatedAt = w.updatedAt ∧ g.createdAt > w.createdAt
    · rw [if_pos h2]
      exact ⟨Or.inr rfl, Or.inr ⟨h2.1.symm, le_of_lt h2.2⟩, Or.inr ⟨rfl, le_refl _⟩⟩
    · rw [if_neg h2]
      refine ⟨Or.inl rfl, Or.inr ⟨rfl, le_refl _⟩, ?_⟩
      omega

lemma activeFold_some_spec (p u : String) (st : List Grant) :
    ∀ (acc : Option Grant) (w : Grant),
      st.foldl (activeStep p u) acc = some w →
      ((acc = some w ∨ (w ∈ st ∧ activeMatch p u w = true)) ∧
        (∀ g ∈ st, activeMatch p u g = true → notNewer g w) ∧
        (∀ a, acc = some a → notNewer a w)) := by
  induction st with
  | nil =>
    intro acc w h
    simp only [List.foldl_nil] at h
    refine ⟨Or.inl h, by simp, ?_⟩
    intro a ha
    rw [h] at ha
    injection ha with ha
    rw [← ha]
    exact notNewer_refl w
  | cons g rest ih =>
    intro acc w h
    rw [List.foldl_cons] at h
    by_cases hm : activeMatch p u g = true
    · cases acc with
      | none =>
        have hstep : activeStep p u none g = some g := by simp [activeStep, hm]
        rw [hstep] at h
        obtain ⟨hfirst, hrest, hacc⟩ := ih (some g) w h
        refine ⟨?_, ?_, ?_⟩
        · rcases hfirst with hf | ⟨hw, hmw⟩
          · injection hf with hf
            exact Or.inr ⟨by rw [← hf]; exact List.mem_cons_self g rest,
              by rw [← hf]; exact hm⟩
          · exact Or.inr ⟨List.mem_cons_of_mem g hw, hmw⟩
        · intro x hx hmx
          rcases List.mem_cons.mp hx with rfl | hx2
          · exact hacc x rfl
          · exact hrest x hx2 hmx
        · intro a ha
          exact Option.noConfusion ha
      | some w0 =>
        have hstep : activeStep p u (some w0) g = some (pickWinner w0 g) := by
          simp [activeStep, hm]
        rw [hstep] at h
        obtain ⟨hfirst, hrest, hacc⟩ := ih (some (pickWinner w0 g)) w h
        obtain ⟨hcases, hnw0, hng⟩ := pickWinner_props w0 g
        have hpw : notNewer (pickWinner w0 g) w := hacc _ rfl
        refine ⟨?_, ?_, ?_⟩
        · rcases hfirst with hf | ⟨hw, hmw⟩
          · injection hf with hf
            rcases hcases with hc | hc
            · left
              rw [← hf, hc]
            · right
              refine ⟨?_, ?_⟩
              · rw [← hf, hc]
                exact List.mem_cons_self g rest
              · rw [← hf, hc]
                exact hm
          · exact Or.inr ⟨List.mem_cons_of_mem g hw, hmw⟩
        · intro x hx hmx
          rcases List.mem_cons.mp hx with rfl | hx2
          · exact notNewer_trans hng hpw
          · exact hrest x hx2 hmx
        · intro a ha
          injection ha with ha
          rw [← ha]
          exact notNewer_trans hnw0 hpw
    · have hstep : activeStep p u acc g = acc := by simp [activeStep, hm]
      rw [hstep] at h
      obtain ⟨hfirst, hrest, hacc⟩ := ih acc w h
      refine ⟨?_, ?_, hacc⟩
      · rcases hfirst with hf | ⟨hw, hmw⟩
        · exact Or.inl hf
        · exact Or.inr ⟨List.mem_cons_of_mem g hw, hmw⟩
      · intro x hx hmx
        rcases List.mem_cons.mp hx with rfl | hx2
        · exact absurd hmx hm
        · exact hrest x hx2 hmx

lemma activeFold_none_spec (p u : String) (st : List Grant) :
    ∀ acc : Option Grant,
      (st.foldl (activeStep p u) acc = none ↔
        acc = none ∧ ∀ g ∈ st, activeMatch p u g = false) := by
  induction st with
  | nil =>
    intro acc
    simp
  | cons g rest ih =>
    intro acc
    rw [List.foldl_cons]
    by_cases hm : activeMatch p u g = true
    · have hsome : ∃ x, activeStep p u acc g = some x := by
        cases acc with
        | none => exact ⟨g, by simp [activeStep, hm]⟩
        | some w0 => exact ⟨pickWinner w0 g, by simp [activeStep, hm]⟩
      obtain ⟨x, hx⟩ := hsome
      rw [hx, ih]
      constructor
      · rintro ⟨hxn, -⟩
        exact Option.noConfusion hxn
      · rintro ⟨-, hall⟩
        exact absurd (hall g (List.mem_cons_self g rest)) (by simp [hm])
    · have hstep : activeStep p u acc g = acc := by simp [activeStep, hm]
      have hm2 : activeMatch p u g = false := by simpa using hm
      rw [hstep, ih]
      constructor
      · rintro ⟨ha, hall⟩
        refine ⟨ha, ?_⟩
        intro x hx
        rcases List.mem_cons.mp hx with rfl | hx2
        · exact hm2
        · exact hall x hx2
      · rintro ⟨ha, hall⟩
        exact ⟨ha, fun x hx => hall x (List.mem_cons_of_mem g hx)⟩

/-- C5 (amended): the tie-breaking memory implementation of GetActiveGrant
returns NotFound exactly when the pair has no active grant, and any grant it
returns is an active match of the pair that every active match of the pair
fails to beat under the most-recent updated-at, then most-recent created-at
order; the alternate memory implementation returns the first active match in
iteration order instead, so the tie-break is not applied by every store
implementation. -/
theorem getActiveGrant_tiebreak_memory (st : List Grant) (p u : String) :
    (memGetActiveGrant st p u = .error .notFound ↔
      ∀ g ∈ st, activeMatch p u g = false) ∧
    ∀ w, memGetActiveGrant st p u = .ok w →
      w ∈ st ∧ activeMatch p u w = true ∧
        ∀ g ∈ st, activeMatch p u g = true →
          g.updatedAt < w.updatedAt ∨
            (g.updatedAt = w.updatedAt ∧ g.createdAt ≤ w.createdAt) := by
  constructor
  · unfold memGetActiveGrant memGetActiveGrantCore
    cases hcore : st.foldl (activeStep p u) none with
    | none =>
      constructor
      · intro _
        exact ((activeFold_none_spec p u st none).mp hcore).2
      · intro _
        rfl
    | some w0 =>
      constructor
      · intro hfalse
        exact Except.noConfusion hfalse
      · intro hall
        have hn := (activeFold_none_spec p u st none).mpr ⟨rfl, hall⟩
        rw [hcore] at hn
        exact Option.noConfusion hn
  · intro w hw
    unfold memGetActiveGrant memGetActiveGrantCore at hw
    cases hcore : st.foldl (activeStep p u) none with
    | none =>
      rw [hcore] at hw
      exact Except.noConfusion hw
    | some w0 =>
      rw [hcore] at hw
      injection hw with hw2
      subst hw2
      obtain ⟨hfirst, hrest, -⟩ := activeFold_some_spec p u st none w0 hcore
      rcases hfirst with hf | ⟨hmem, hmatch⟩
      · exact Option.noConfusion hf
      · exact ⟨hmem, hmatch, fun g hg hmg => hrest g hg hmg⟩

/-- A dirty store for C5: the first active grant of the pair in iteration
order, with the older updated timestamp. -/
def dirtyG1 : Grant :=
  ⟨"g-1", "pet-1", "owner-1", "delegate-1", [scopePetRead], statusActive, 1, 1, none⟩

/-- A dirty store for C5: the second active grant of the pair in iteration
order, with the strictly more recent updated timestamp. -/
def dirtyG2 : Grant :=
  ⟨"g-2", "pet-1", "owner-1", "delegate-1", [scopePetRead], statusActive, 2, 2, none⟩

/-- C5 (counterexample): not every store implementation applies the
deterministic tie-break: on a store with two active grants for the pair, the
alternate memory implementation returns the first match in iteration order
although the other grant has the strictly more recent updated timestamp,
while the tie-breaking implementation returns the recent one. -/
theorem getActiveGrant_alt_no_tiebreak_counterexample :
    memGetActiveGrantAlt [dirtyG1, dirtyG2] "pet-1" "delegate-1" = .ok dirtyG1 ∧
    memGetActiveGrant [dirtyG1, dirtyG2] "pet-1" "delegate-1" = .ok dirtyG2 ∧
    dirtyG2.updatedAt > dirtyG1.updatedAt ∧ dirtyG1 ≠ dirtyG2 := by
  decide

/-! Concrete instances for the witnesses. -/

/-- A first invited grant of a pair, for the Accept witnesses. -/
def accA : Grant :=
  ⟨"a", "pet-1", "owner-1", "delegate-1", [scopeEventsRead], statusInvited, 10, 10, none⟩

/-- A duplicate invited grant of the same pair. -/
def accB : Grant :=
  ⟨"b", "pet-1", "owner-1", "delegate-1", [scopeEventsRead], statusInvited, 20, 20, none⟩

/-- The accepted version of the first grant. -/
def accA1 : Grant :=
  ⟨"a", "pet-1", "owner-1", "delegate-1", [scopeEventsRead], statusActive, 10, 30, none⟩

/-- The duplicate after the repair pass revoked it. -/
def accB1 : Grant :=
  ⟨"b", "pet-1", "owner-1", "delegate-1", [scopeEventsRead], statusRevoked, 20, 30, some 30⟩

/-- A fault pattern failing exactly the write to the duplicate grant. -/
def failB : String → Bool := fun i => i = "b"

/-- Witness for C2 at a dirty store with two invited grants of one pair:
accepting the first leaves it the only non-revoked grant of the pair, the
duplicate ends revoked, and with the write to the duplicate failing the
accept still succeeds and returns the same grant while the duplicate stays
un-revoked. -/
theorem accept_enforces_single_active_witness :
    accA1 ∈ [accA1, accB1] ∧ accA1.status = statusActive ∧
    accB1.status = statusRevoked ∧
    svcAccept (memRepoWithUpdateFaults failB) 30 [accA, accB] "a" "delegate-1" =
      (.ok accA1, [accA1, accB]) := by
  have h := accept_enforces_single_active [accA, accB] 30 "a" "delegate-1" accA1
    [accA1, accB1] (by decide) (by decide)
  exact ⟨h.1, h.2.1, h.2.2.1 accB1 (by decide) (by decide) (by decide) (by decide),
    by decide⟩

/-- A revoked grant for the C4 witness. -/
def revG : Grant :=
  ⟨"r", "pet-1", "owner-1", "delegate-1", [scopePetRead], statusRevoked, 5, 6, some 6⟩

/-- Witness for C4: on a store holding one revoked grant, Accept by its
grantee answers ErrBadState and Revoke by its owner returns it unchanged. -/
theorem revoked_is_terminal_witness :
    svcAccept memRepo 9 [revG] revG.id revG.granteeUserID = (.error .badState, [revG]) ∧
    svcRevoke memRepo 9 [revG] revG.id revG.ownerUserID = (.ok revG, [revG]) := by
  have h := revoked_is_terminal [revG] revG 9 (by decide) (by decide) (by decide)
    (by decide) (by decide) (by decide) (by decide) (by decide)
  exact ⟨h.2.2.2.1, h.2.2.2.2⟩

/-- Witness for the amended C5: on the dirty two-active store the
tie-breaking implementation returns an active match that the other active
grant does not beat. -/
theorem getActiveGrant_tiebreak_memory_witness :
    dirtyG2 ∈ [dirtyG1, dirtyG2] ∧
    activeMatch "pet-1" "delegate-1" dirtyG2 = true ∧
    (dirtyG1.updatedAt < dirtyG2.updatedAt ∨
      (dirtyG1.updatedAt = dirtyG2.updatedAt ∧ dirtyG1.createdAt ≤ dirtyG2.createdAt)) := by
  have h := (getActiveGrant_tiebreak_memory [dirtyG1, dirtyG2] "pet-1" "delegate-1").2
    dirtyG2 (by decide)
  exact ⟨h.1, h.2.1, h.2.2 dirtyG1 (by decide) (by decide)⟩

/-- The invite input of the spec test for scope strictness. -/
def badScopeIn : InviteInput :=
  ⟨"pet-1", "owner-1", "delegate-1", [scopeEventsRead, "events:unknown"]⟩

/-- Witness for the amended C6: an unknown non-blank scope makes Invite fail
with InvalidInput and create nothing. -/
theorem invite_scope_policy_witness :
    svcInvite memRepo "grant-9" 7 [] badScopeIn = (.error .invalidInput, []) :=
  ((invite_scope_policy [] "grant-9" 7 badScopeIn (by decide) (by decide) (by decide)
    (by decide) (by decide) (by decide)).2 (by decide)).mpr
    (Or.inl ⟨"events:unknown", by decide, by decide, by decide⟩)

/-- An active grant for the C7 witness. -/
def revInputG : Grant :=
  ⟨"k", "pet-1", "owner-1", "delegate-1", [scopePetRead], statusActive, 3, 4, none⟩

/-- Witness for C7: revoking an active grant by its owner replaces it by its
revoked version with both timestamps set to now. -/
theorem revoke_behavior_witness :
    svcRevoke memRepo 8 [revInputG] "k" "owner-1" =
      (.ok (revokedVersion revInputG 8),
        [revInputG].map (fun h => if h.id = revInputG.id
          then revokedVersion revInputG 8 else h)) ∧
    (revokedVersion revInputG 8).status = statusRevoked ∧
    (revokedVersion revInputG 8).updatedAt = 8 ∧
    (revokedVersion revInputG 8).revokedAt = some 8 :=
  (((revoke_behavior [revInputG] 8 "k" "owner-1" (by decide) (by decide) (by decide)).2
    revInputG (by decide) (by decide)).2 (by decide)).2 (by decide)

/-- An invited grant for the C8 witness. -/
def idemG : Grant :=
  ⟨"i", "pet-2", "owner-2", "delegate-2", [scopeEventsRead], statusInvited, 1, 1, none⟩

/-- The accepted version of that grant. -/
def idemG1 : Grant :=
  ⟨"i", "pet-2", "owner-2", "delegate-2", [scopeEventsRead], statusActive, 1, 11, none⟩

/-- Witness for C8: the first Accept activates the grant at instant 11 and
the second Accept at instant 12 returns the very same grant and store, its
updated timestamp still 11. -/
theorem accept_idempotent_witness :
    svcAccept memRepo 11 [idemG] idemG.id idemG.granteeUserID = (.ok idemG1, [idemG1]) ∧
    idemG1.status = statusActive ∧ idemG1.updatedAt = 11 ∧
    svcAccept memRepo 12 [idemG1] idemG.id idemG.granteeUserID = (.ok idemG1, [idemG1]) := by
  have h := accept_idempotent_second_call_noop [idemG] idemG 11 12 (by decide) (by decide)
    (by decide) (by decide) (by decide) (by decide)
  obtain ⟨g1, st1, h1, -, -, -, h5⟩ := h
  have hconc : svcAccept memRepo 11 [idemG] idemG.id idemG.granteeUserID =
      (.ok idemG1, [idemG1]) := by decide
  have he := h1.symm.trans hconc
  injection he with he1 he2
  injection he1 with he1
  subst he1
  subst he2
  exact ⟨hconc, by decide, by decide, h5⟩

/-- The invite input for the C9 witness. -/
def c9inp : InviteInput := ⟨"pet-1", "owner-1", "delegate-9", []⟩

/-- The grant that invite creates at the C9 witness input. -/
def c9new : Grant :=
  ⟨"n-1", "pet-1", "owner-1", "delegate-9", [scopePetRead, scopeEventsRead],
    statusInvited, 2, 2, none⟩

/-- Witness for C9: the invited grant of a concrete Invite call has invited
status, no revocation instant, and satisfies the consistency invariant. -/
theorem revokedAt_iff_status_revoked_witness :
    (c9new.status = statusInvited ∧ c9new.revokedAt = none) ∧
    revokedAtConsistent c9new := by
  have h := revokedAt_iff_status_revoked [accA] (by decide) (by decide)
  exact ⟨h.1 "n-1" 2 c9inp c9new [accA, c9new] (by decide),
    h.2.1 "n-1" 2 c9inp c9new (by decide)⟩

/-- A store whose lookups always fail with a connection failure, to witness
the error collapse of C10. -/
def failingRepo : RepoOps (List Grant) :=
  { memRepo with
      getByID := fun _ _ => .error .connFailure,
      getActiveGrant := fun _ _ _ => .error .connFailure }

/-- Witness for C10: with lookups failing for a non-missing-grant cause, the
engine still reports ErrNotFound on all three paths. -/
theorem lookup_failures_collapse_witness :
    svcAccept failingRepo 0 [] "g-1" "u-1" = (.error .notFound, []) ∧
    svcRevoke failingRepo 0 [] "g-1" "u-1" = (.error .notFound, []) ∧
    svcGetActiveGrant failingRepo [] "p-1" "u-1" = .error .notFound := by
  have h := lookup_failures_collapse_to_notFound failingRepo ([] : List Grant) 0
    "g-1" "u-1" "p-1" .connFailure .connFailure .connFailure
    (by decide) (by decide) (by decide)
  exact ⟨h.1 rfl, h.2.1 rfl, h.2.2 rfl⟩

end PetClinic
